import Mathlib

/-!
Shallow embedding of the trajectory-generation core of
`MatrixCityPlugin/Content/Python/utils_sequencer.py`: the four generators
`generate_train_box`, `generate_test_box`, `generate_train_line`,
`generate_test_line`, together with the sampling arithmetic they use.

Modelling choices:
* Python floats are idealized as real numbers (`math.dist` becomes a
  `Real.sqrt`-based Euclidean distance, `math.cos`/`math.sin`/`math.radians`
  become their real counterparts), frame counters are `ℤ`.
* Python `int(x)` applied to the non-negative quotients in this file is
  `Int.floor` (truncation and floor agree on non-negative arguments).
* `assert` failure is modelled by `Option`: a generator whose precondition
  fails returns `none` and emits nothing.
* The global NumPy random source is modelled by explicit state passing: an
  injected stream `g : ℕ → ℕ` of raw draws plus a cursor index, threaded in
  and out of the test-variant generators.  `np.random.randint lo hi`
  consumes one raw draw and returns a value in `[lo, hi)`.
* The Python lists `point1`, `point2` are mutable and `generate_test_line`
  assigns to their elements; as explicit state passing, the embedding of
  `generate_test_line` returns the final values of these two variables
  alongside the keyframe list and cursor.
-/

open scoped Classical

/-- Keyframe record mirroring the `SequenceKey` pydantic model (imported by
the source; its fields are fixed by every construction site): a frame index,
a world location `(x, y, z)` and a rotation `(roll, pitch, yaw)` in degrees. -/
structure SequenceKey where
  frame : ℤ
  location : ℝ × ℝ × ℝ
  rotation : ℝ × ℝ × ℝ

/-- `math.radians`: degrees to radians. -/
noncomputable def radians (x : ℝ) : ℝ := x * Real.pi / 180

/-- `math.dist` on two 2-D points: the Euclidean distance. -/
noncomputable def math_dist (p q : ℝ × ℝ) : ℝ :=
  Real.sqrt ((p.1 - q.1) ^ 2 + (p.2 - q.2) ^ 2)

/-- Sample `i` of `np.linspace a b num`: `num` evenly spaced values from `a`
to `b` inclusive (for `num ≤ 1` the only sample is `a`). -/
noncomputable def linspace (a b : ℝ) (num : ℕ) (i : ℕ) : ℝ :=
  if num ≤ 1 then a else a + i * (b - a) / ((num : ℝ) - 1)

/-- `np.random.randint lo hi` drawing its raw value from the injected stream
`g` at cursor `idx`: the result is `lo + (g idx) % (hi - lo)`, hence always in
`[lo, hi)` when `lo < hi`. -/
def randint (lo hi : ℤ) (g : ℕ → ℕ) (idx : ℕ) : ℤ :=
  lo + (g idx : ℤ) % (hi - lo)

/-- `w_instance = int(w/interval) + 2` from the box generators.  The width `w`
is a distance, hence non-negative, so Python's truncating `int` is the floor
and the value is non-negative, represented via `Int.toNat`. -/
noncomputable def box_w_count (w interval : ℝ) : ℕ :=
  (⌊w / interval⌋).toNat + 2

/-- `h_instance = int(h/interval) + 1` from the box generators (`h ≥ 0`, so
`int` is the floor). -/
noncomputable def box_h_count (h interval : ℝ) : ℤ :=
  ⌊h / interval⌋ + 1

/-- The lane loop shared by `generate_train_box` and `generate_test_box`:
for each of the `n` remaining lanes, starting at lane index `i` with cursor
`cf`, append a keyframe at the lane's start point at frame `cf`, advance the
cursor by `h`, append a keyframe at the lane's end point, advance the cursor
by `1`.  `rot` gives the rotation used by lane `i` (constant per pass in the
train variant, freshly drawn per lane in the test variant). -/
noncomputable def boxLanes (xs ys xe ye : ℕ → ℝ) (z : ℝ) (rot : ℕ → ℝ × ℝ × ℝ)
    (h : ℤ) (i : ℕ) (cf : ℤ) : ℕ → List SequenceKey × ℤ
  | 0 => ([], cf)
  | n + 1 =>
    let rest := boxLanes xs ys xe ye z rot h (i + 1) (cf + h + 1) n
    (⟨cf, (xs i, ys i, z), rot i⟩ :: ⟨cf + h, (xe i, ye i, z), rot i⟩ :: rest.1,
     rest.2)

/-- `generate_train_box`: checks the axis-alignment asserts, computes the
lane lattice with train interval `4000`, picks the pitch by the altitude
threshold, and runs the (textually fourfold-repeated, here parameterized)
lane pass once for each yaw `0, 90, 180, 270`. -/
noncomputable def generate_train_box (line1 line2 : ℝ × ℝ × ℝ × ℝ) (z : ℝ)
    (current_frame : ℤ) : Option (List SequenceKey × ℤ) :=
  match line1, line2 with
  | (x11, y11, x12, y12), (x21, y21, x22, y22) =>
    if y11 = y12 ∧ y21 = y22 ∧ x11 = x21 ∧ x12 = x22 then
      let w := math_dist (x11, y11) (x12, y12)
      let h := math_dist (x11, y11) (x21, y21)
      let w_instance := box_w_count w 4000
      let h_instance := box_h_count h 4000
      let xs := linspace x11 x12 w_instance
      let ys := linspace y11 y12 w_instance
      let xe := linspace x21 x22 w_instance
      let ye := linspace y21 y22 w_instance
      let pitch : ℝ := if z > 25000 then -60 else -45
      let p0 := boxLanes xs ys xe ye z (fun _ => (0, pitch, 0)) h_instance 0
        current_frame w_instance
      let p1 := boxLanes xs ys xe ye z (fun _ => (0, pitch, 90)) h_instance 0
        p0.2 w_instance
      let p2 := boxLanes xs ys xe ye z (fun _ => (0, pitch, 180)) h_instance 0
        p1.2 w_instance
      let p3 := boxLanes xs ys xe ye z (fun _ => (0, pitch, 270)) h_instance 0
        p2.2 w_instance
      some (p0.1 ++ p1.1 ++ p2.1 ++ p3.1, p3.2)
    else none

/-- `generate_test_box`: same asserts and lattice as the train variant but
with test interval `4501`, a single lane pass, and a per-lane rotation with
pitch drawn by `randint (-60) (-44)` and yaw by `randint 0 361` (two raw
draws per lane, consumed in that order).  The final random-stream cursor is
returned as explicit state. -/
noncomputable def generate_test_box (line1 line2 : ℝ × ℝ × ℝ × ℝ) (z : ℝ)
    (current_frame : ℤ) (g : ℕ → ℕ) (idx : ℕ) :
    Option (List SequenceKey × ℤ × ℕ) :=
  match line1, line2 with
  | (x11, y11, x12, y12), (x21, y21, x22, y22) =>
    if y11 = y12 ∧ y21 = y22 ∧ x11 = x21 ∧ x12 = x22 then
      let w := math_dist (x11, y11) (x12, y12)
      let h := math_dist (x11, y11) (x21, y21)
      let w_instance := box_w_count w 4501
      let h_instance := box_h_count h 4501
      let xs := linspace x11 x12 w_instance
      let ys := linspace y11 y12 w_instance
      let xe := linspace x21 x22 w_instance
      let ye := linspace y21 y22 w_instance
      let rot : ℕ → ℝ × ℝ × ℝ := fun i =>
        (0, (randint (-60) (-44) g (idx + 2 * i) : ℝ),
         (randint 0 361 g (idx + 2 * i + 1) : ℝ))
      let p := boxLanes xs ys xe ye z rot h_instance 0 current_frame w_instance
      some (p.1, p.2, idx + 2 * w_instance)
    else none

/-- `instance = int(distance/100) + 1` (dense) or `int(distance/500) + 1`
(sparse) from `generate_train_line`. -/
noncomputable def train_line_inst (distance : ℝ) (dense : Bool) : ℤ :=
  if dense then ⌊distance / 100⌋ + 1 else ⌊distance / 500⌋ + 1

/-- `instance = int(distance/4830) + 1` from `generate_test_line`. -/
noncomputable def test_line_inst (distance : ℝ) : ℤ :=
  ⌊distance / 4830⌋ + 1

/-- The ten-keyframe emission shared verbatim by `generate_train_line` and
`generate_test_line`: five point1/point2 pairs with rotations
`(0,0,yaw)`, `(0,0,90+yaw)`, `(0,0,180+yaw)`, `(0,0,270+yaw)`, `(0,90,yaw)`;
after each point1 keyframe the cursor advances by `inst`, after each point2
keyframe by `1`.  (The `(0,-90,yaw)` pair is commented out in the source and
hence absent.) -/
noncomputable def lineSweep (p1 p2 : ℝ × ℝ) (z yaw : ℝ) (inst cf0 : ℤ) :
    List SequenceKey × ℤ :=
  let f1 := cf0 + inst
  let f2 := f1 + 1
  let f3 := f2 + inst
  let f4 := f3 + 1
  let f5 := f4 + inst
  let f6 := f5 + 1
  let f7 := f6 + inst
  let f8 := f7 + 1
  let f9 := f8 + inst
  ([⟨cf0, (p1.1, p1.2, z), (0, 0, yaw)⟩,
    ⟨f1, (p2.1, p2.2, z), (0, 0, yaw)⟩,
    ⟨f2, (p1.1, p1.2, z), (0, 0, 90 + yaw)⟩,
    ⟨f3, (p2.1, p2.2, z), (0, 0, 90 + yaw)⟩,
    ⟨f4, (p1.1, p1.2, z), (0, 0, 180 + yaw)⟩,
    ⟨f5, (p2.1, p2.2, z), (0, 0, 180 + yaw)⟩,
    ⟨f6, (p1.1, p1.2, z), (0, 0, 270 + yaw)⟩,
    ⟨f7, (p2.1, p2.2, z), (0, 0, 270 + yaw)⟩,
    ⟨f8, (p1.1, p1.2, z), (0, 90, yaw)⟩,
    ⟨f9, (p2.1, p2.2, z), (0, 90, yaw)⟩],
   f9 + 1)

/-- `generate_train_line`: distance-based instance count (interval `100` when
`dense`, `500` otherwise) followed by the ten-keyframe sweep. -/
noncomputable def generate_train_line (point1 point2 : ℝ × ℝ) (z yaw : ℝ)
    (current_frame : ℤ) (dense : Bool) : List SequenceKey × ℤ :=
  lineSweep point1 point2 z yaw
    (train_line_inst (math_dist point1 point2) dense) current_frame

/-- `generate_test_line`: first overwrites `point1` and `point2` in place
with the endpoints displaced by `±570·(cos (radians yaw), sin (radians yaw))`,
then replaces `yaw` by `randint 0 90`, recomputes the instance count from the
adjusted distance with test interval `4830`, and runs the same ten-keyframe
sweep.  The returned tuple carries, as explicit state, the final values of
the mutated `point1`/`point2` variables and the advanced random-stream
cursor. -/
noncomputable def generate_test_line (point1 point2 : ℝ × ℝ) (z yaw : ℝ)
    (current_frame : ℤ) (g : ℕ → ℕ) (idx : ℕ) :
    List SequenceKey × ℤ × (ℝ × ℝ) × (ℝ × ℝ) × ℕ :=
  let point1' := (point1.1 + Real.cos (radians yaw) * 570,
                  point1.2 + Real.sin (radians yaw) * 570)
  let point2' := (point2.1 - Real.cos (radians yaw) * 570,
                  point2.2 - Real.sin (radians yaw) * 570)
  let yaw' := randint 0 90 g idx
  let inst := test_line_inst (math_dist point1' point2')
  let r := lineSweep point1' point2' z (yaw' : ℝ) inst current_frame
  (r.1, r.2, point1', point2', idx + 1)

/-- Spec-side description of one box-pattern lane pass (from the spec's
words, §4.2): lane `i` of `w` starts at cursor `cf + i*(h+1)`, emits its
start keyframe there, its end keyframe `h` frames later, and leaves a gap of
one frame; all keyframes of the pass carry rotation `(0, pitch, yaw)`. -/
noncomputable def boxPassSpec (xs ys xe ye : ℕ → ℝ) (z pitch yaw : ℝ)
    (h : ℤ) (w : ℕ) (cf : ℤ) : List SequenceKey :=
  (List.range w).flatMap fun i =>
    [⟨cf + (i : ℤ) * (h + 1), (xs i, ys i, z), (0, pitch, yaw)⟩,
     ⟨cf + (i : ℤ) * (h + 1) + h, (xe i, ye i, z), (0, pitch, yaw)⟩]

/-- Spec-side description of the test-variant box pass (from the spec's
words, §4.2): a single pass over the lanes with the train-variant frame
advancement, where lane `i` uses a freshly drawn pitch in `[-60, -44)` and
yaw in `[0, 361)`, the same pair for both of its keyframes. -/
noncomputable def testBoxPassSpec (xs ys xe ye : ℕ → ℝ) (z : ℝ) (g : ℕ → ℕ)
    (idx : ℕ) (h : ℤ) (w : ℕ) (cf : ℤ) : List SequenceKey :=
  (List.range w).flatMap fun i =>
    [⟨cf + (i : ℤ) * (h + 1), (xs i, ys i, z),
      (0, (randint (-60) (-44) g (idx + 2 * i) : ℝ),
       (randint 0 361 g (idx + 2 * i + 1) : ℝ))⟩,
     ⟨cf + (i : ℤ) * (h + 1) + h, (xe i, ye i, z),
      (0, (randint (-60) (-44) g (idx + 2 * i) : ℝ),
       (randint 0 361 g (idx + 2 * i + 1) : ℝ))⟩]

/-- Monotone frame bookkeeping of one generator call: the cursor strictly
advances, the emitted frames are strictly increasing along the list (hence
non-decreasing with no frame shared between distinct keyframes), and every
emitted frame lies in `[cfin, cfout)`. -/
def MonotoneFrames (cfin : ℤ) (L : List SequenceKey) (cfout : ℤ) : Prop :=
  cfin < cfout ∧
  List.Chain' (fun a b : SequenceKey => a.frame < b.frame) L ∧
  ∀ k ∈ L, cfin ≤ k.frame ∧ k.frame < cfout

/-- Cursor/last-frame relation of one generator call: the first emitted
keyframe sits at the incoming cursor and the returned cursor is one past the
last emitted keyframe's frame. -/
def HeadLastSpec (cfin : ℤ) (L : List SequenceKey) (cfout : ℤ) : Prop :=
  L.head?.map SequenceKey.frame = some cfin ∧
  L.getLast?.map SequenceKey.frame = some (cfout - 1)

/-! ### Basic facts about the sampling arithmetic -/

lemma math_dist_nonneg (p q : ℝ × ℝ) : 0 ≤ math_dist p q := Real.sqrt_nonneg _

lemma math_dist_horizontal (x1 x2 y : ℝ) : math_dist (x1, y) (x2, y) = |x1 - x2| := by
  simp [math_dist, Real.sqrt_sq_eq_abs]

lemma math_dist_vertical (x y1 y2 : ℝ) : math_dist (x, y1) (x, y2) = |y1 - y2| := by
  simp [math_dist, Real.sqrt_sq_eq_abs]

lemma randint_bounds (lo hi : ℤ) (hlh : lo < hi) (g : ℕ → ℕ) (idx : ℕ) :
    lo ≤ randint lo hi g idx ∧ randint lo hi g idx < hi := by
  have h1 : 0 ≤ ((g idx : ℤ)) % (hi - lo) := Int.emod_nonneg _ (by omega)
  have h2 : ((g idx : ℤ)) % (hi - lo) < hi - lo := Int.emod_lt_of_pos _ (by omega)
  unfold randint
  omega

lemma box_w_count_cast (w interval : ℝ) (hw : 0 ≤ w) (hi : 0 < interval) :
    (box_w_count w interval : ℤ) = ⌊w / interval⌋ + 2 := by
  have hf : 0 ≤ ⌊w / interval⌋ := Int.floor_nonneg.mpr (div_nonneg hw hi.le)
  simp [box_w_count, Int.toNat_of_nonneg hf]

lemma box_w_count_ge (w interval : ℝ) : 2 ≤ box_w_count w interval :=
  Nat.le_add_left 2 _

lemma box_h_count_ge (h interval : ℝ) (hh : 0 ≤ h) (hi : 0 < interval) :
    1 ≤ box_h_count h interval := by
  have hf : 0 ≤ ⌊h / interval⌋ := Int.floor_nonneg.mpr (div_nonneg hh hi.le)
  unfold box_h_count
  omega

lemma train_line_inst_ge (d : ℝ) (hd : 0 ≤ d) (dense : Bool) :
    1 ≤ train_line_inst d dense := by
  have h1 : 0 ≤ ⌊d / 100⌋ := Int.floor_nonneg.mpr (div_nonneg hd (by norm_num))
  have h2 : 0 ≤ ⌊d / 500⌋ := Int.floor_nonneg.mpr (div_nonneg hd (by norm_num))
  unfold train_line_inst
  cases dense <;> simp <;> omega

lemma test_line_inst_ge (d : ℝ) (hd : 0 ≤ d) : 1 ≤ test_line_inst d := by
  have h1 : 0 ≤ ⌊d / 4830⌋ := Int.floor_nonneg.mpr (div_nonneg hd (by norm_num))
  unfold test_line_inst
  omega

/-! ### Closed form of the box lane loop -/

lemma boxLanes_eq (xs ys xe ye : ℕ → ℝ) (z : ℝ) (rot : ℕ → ℝ × ℝ × ℝ) (h : ℤ) :
    ∀ (n i : ℕ) (cf : ℤ),
    boxLanes xs ys xe ye z rot h i cf n =
      ((List.range n).flatMap fun j =>
        [⟨cf + (j : ℤ) * (h + 1), (xs (i + j), ys (i + j), z), rot (i + j)⟩,
         ⟨cf + (j : ℤ) * (h + 1) + h, (xe (i + j), ye (i + j), z), rot (i + j)⟩],
       cf + (n : ℤ) * (h + 1)) := by
  intro n
  induction n with
  | zero => intro i cf; simp [boxLanes]
  | succ m ih =>
    intro i cf
    rw [boxLanes, ih (i + 1) (cf + h + 1)]
    refine Prod.ext ?_ ?_
    · simp only [List.range_succ_eq_map, List.flatMap_cons, List.flatMap_map]
      simp only [Nat.cast_zero, zero_mul, add_zero, Nat.add_zero, List.cons_append,
        List.nil_append]
      refine congrArg₂ _ rfl (congrArg₂ _ rfl ?_)
      apply List.flatMap_congr
      intro j _
      have hidx : i + (j + 1) = i + 1 + j := by omega
      have hfr : cf + ((j : ℤ) + 1) * (h + 1) = cf + h + 1 + (j : ℤ) * (h + 1) := by ring
      simp only [Function.comp, Nat.succ_eq_add_one, hidx]
      push_cast
      rw [hfr]
    · push_cast
      ring

lemma boxLanes_snd (xs ys xe ye : ℕ → ℝ) (z : ℝ) (rot : ℕ → ℝ × ℝ × ℝ) (h : ℤ)
    (n i : ℕ) (cf : ℤ) :
    (boxLanes xs ys xe ye z rot h i cf n).2 = cf + (n : ℤ) * (h + 1) := by
  rw [boxLanes_eq]

lemma boxLanes_const_rot (xs ys xe ye : ℕ → ℝ) (z pitch yaw : ℝ) (h : ℤ)
    (w : ℕ) (cf : ℤ) :
    boxLanes xs ys xe ye z (fun _ => (0, pitch, yaw)) h 0 cf w =
      (boxPassSpec xs ys xe ye z pitch yaw h w cf, cf + (w : ℤ) * (h + 1)) := by
  rw [boxLanes_eq]
  simp [boxPassSpec]

lemma boxLanes_test_rot (xs ys xe ye : ℕ → ℝ) (z : ℝ) (g : ℕ → ℕ) (idx : ℕ)
    (h : ℤ) (w : ℕ) (cf : ℤ) :
    boxLanes xs ys xe ye z
      (fun i => (0, (randint (-60) (-44) g (idx + 2 * i) : ℝ),
                 (randint 0 361 g (idx + 2 * i + 1) : ℝ))) h 0 cf w =
      (testBoxPassSpec xs ys xe ye z g idx h w cf, cf + (w : ℤ) * (h + 1)) := by
  rw [boxLanes_eq]
  simp [testBoxPassSpec]

lemma length_flatMap_pairs {α : Type _} (f g : ℕ → α) (n : ℕ) :
    ((List.range n).flatMap fun j => [f j, g j]).length = 2 * n := by
  induction n with
  | zero => simp
  | succ m ih =>
    simp only [List.range_succ, List.flatMap_append, List.flatMap_cons,
      List.flatMap_nil, List.append_nil, List.length_append, ih]
    simp
    omega

lemma boxPassSpec_length (xs ys xe ye : ℕ → ℝ) (z pitch yaw : ℝ) (h : ℤ)
    (w : ℕ) (cf : ℤ) :
    (boxPassSpec xs ys xe ye z pitch yaw h w cf).length = 2 * w := by
  unfold boxPassSpec
  exact length_flatMap_pairs _ _ w

lemma testBoxPassSpec_length (xs ys xe ye : ℕ → ℝ) (z : ℝ) (g : ℕ → ℕ)
    (idx : ℕ) (h : ℤ) (w : ℕ) (cf : ℤ) :
    (testBoxPassSpec xs ys xe ye z g idx h w cf).length = 2 * w := by
  unfold testBoxPassSpec
  exact length_flatMap_pairs _ _ w

lemma boxPassSpec_rotation (xs ys xe ye : ℕ → ℝ) (z pitch yaw : ℝ) (h : ℤ)
    (w : ℕ) (cf : ℤ) (k : SequenceKey)
    (hk : k ∈ boxPassSpec xs ys xe ye z pitch yaw h w cf) :
    k.rotation = (0, pitch, yaw) := by
  simp only [boxPassSpec, List.mem_flatMap, List.mem_range, List.mem_cons,
    List.mem_singleton, List.not_mem_nil, or_false] at hk
  obtain ⟨j, hj, rfl | rfl⟩ := hk <;> rfl

lemma boxLanes_mem_bounds (xs ys xe ye : ℕ → ℝ) (z : ℝ) (rot : ℕ → ℝ × ℝ × ℝ)
    (h : ℤ) (hh : 1 ≤ h) (n i : ℕ) (cf : ℤ) (k : SequenceKey)
    (hk : k ∈ (boxLanes xs ys xe ye z rot h i cf n).1) :
    cf ≤ k.frame ∧ k.frame < (boxLanes xs ys xe ye z rot h i cf n).2 := by
  rw [boxLanes_eq] at hk ⊢
  simp only [List.mem_flatMap, List.mem_range, List.mem_cons, List.mem_singleton,
    List.not_mem_nil, or_false] at hk
  obtain ⟨j, hj, hcase⟩ := hk
  have hj' : (j : ℤ) + 1 ≤ (n : ℤ) := by exact_mod_cast hj
  have hmul : ((j : ℤ) + 1) * (h + 1) ≤ (n : ℤ) * (h + 1) :=
    mul_le_mul_of_nonneg_right hj' (by omega)
  have hnn : 0 ≤ (j : ℤ) * (h + 1) :=
    mul_nonneg (Int.natCast_nonneg j) (by omega)
  rcases hcase with rfl | rfl <;> constructor <;> simp <;> nlinarith

lemma boxLanes_chain (xs ys xe ye : ℕ → ℝ) (z : ℝ) (rot : ℕ → ℝ × ℝ × ℝ)
    (h : ℤ) (hh : 1 ≤ h) :
    ∀ (n i : ℕ) (cf : ℤ),
    List.Chain' (fun a b : SequenceKey => a.frame < b.frame)
      (boxLanes xs ys xe ye z rot h i cf n).1 := by
  intro n
  induction n with
  | zero => intro i cf; simp [boxLanes]
  | succ m ih =>
    intro i cf
    simp only [boxLanes]
    refine List.chain'_cons'.mpr ⟨?_, List.chain'_cons'.mpr ⟨?_, ih (i + 1) (cf + h + 1)⟩⟩
    · intro y hy
      simp only [List.head?_cons, Option.mem_def, Option.some.injEq] at hy
      subst hy
      show cf < cf + h
      omega
    · intro y hy
      have hmem := List.mem_of_mem_head? hy
      have hb := boxLanes_mem_bounds xs ys xe ye z rot h hh m (i + 1) (cf + h + 1) y hmem
      show cf + h < y.frame
      omega

lemma boxLanes_head (xs ys xe ye : ℕ → ℝ) (z : ℝ) (rot : ℕ → ℝ × ℝ × ℝ)
    (h : ℤ) (m i : ℕ) (cf : ℤ) :
    (boxLanes xs ys xe ye z rot h i cf (m + 1)).1.head? =
      some ⟨cf, (xs i, ys i, z), rot i⟩ := by
  simp [boxLanes]

lemma boxLanes_getLast (xs ys xe ye : ℕ → ℝ) (z : ℝ) (rot : ℕ → ℝ × ℝ × ℝ)
    (h : ℤ) (m i : ℕ) (cf : ℤ) :
    (boxLanes xs ys xe ye z rot h i cf (m + 1)).1.getLast? =
      some ⟨cf + (m : ℤ) * (h + 1) + h, (xe (i + m), ye (i + m), z), rot (i + m)⟩ := by
  rw [boxLanes_eq]
  simp only [List.range_succ, List.flatMap_append, List.flatMap_cons,
    List.flatMap_nil, List.append_nil]
  rw [List.getLast?_append_of_ne_nil _ (by simp)]
  simp

lemma boxLanes_length (xs ys xe ye : ℕ → ℝ) (z : ℝ) (rot : ℕ → ℝ × ℝ × ℝ)
    (h : ℤ) (n i : ℕ) (cf : ℤ) :
    (boxLanes xs ys xe ye z rot h i cf n).1.length = 2 * n := by
  rw [boxLanes_eq]
  exact length_flatMap_pairs _ _ n

lemma boxLanes_monotone (xs ys xe ye : ℕ → ℝ) (z : ℝ) (rot : ℕ → ℝ × ℝ × ℝ)
    (h : ℤ) (hh : 1 ≤ h) (n i : ℕ) (hn : n ≠ 0) (cf : ℤ) :
    MonotoneFrames cf (boxLanes xs ys xe ye z rot h i cf n).1
      (boxLanes xs ys xe ye z rot h i cf n).2 := by
  refine ⟨?_, boxLanes_chain xs ys xe ye z rot h hh n i cf,
    fun k hk => boxLanes_mem_bounds xs ys xe ye z rot h hh n i cf k hk⟩
  rw [boxLanes_snd]
  have hn' : 1 ≤ (n : ℤ) := by exact_mod_cast Nat.one_le_iff_ne_zero.mpr hn
  nlinarith

lemma MonotoneFrames.append {a b c : ℤ} {L1 L2 : List SequenceKey}
    (h1 : MonotoneFrames a L1 b) (h2 : MonotoneFrames b L2 c) :
    MonotoneFrames a (L1 ++ L2) c := by
  obtain ⟨hab, hc1, hm1⟩ := h1
  obtain ⟨hbc, hc2, hm2⟩ := h2
  refine ⟨by omega, ?_, ?_⟩
  · refine List.Chain'.append hc1 hc2 ?_
    intro x hx y hy
    have hx' := hm1 x (List.mem_of_mem_getLast? hx)
    have hy' := hm2 y (List.mem_of_mem_head? hy)
    omega
  · intro k hk
    rcases List.mem_append.mp hk with hk | hk
    · have := hm1 k hk; omega
    · have := hm2 k hk; omega

/-! ### Characterization of the generators -/

lemma generate_train_box_char (x11 y11 x12 y12 x21 y21 x22 y22 z : ℝ) (cf : ℤ)
    (wc : ℕ) (hc : ℤ) (pitch : ℝ)
    (ha : y11 = y12 ∧ y21 = y22 ∧ x11 = x21 ∧ x12 = x22)
    (hwc : wc = box_w_count (math_dist (x11, y11) (x12, y12)) 4000)
    (hhc : hc = box_h_count (math_dist (x11, y11) (x21, y21)) 4000)
    (hp : pitch = if z > 25000 then (-60 : ℝ) else -45) :
    generate_train_box (x11, y11, x12, y12) (x21, y21, x22, y22) z cf =
      some ((boxPassSpec (linspace x11 x12 wc) (linspace y11 y12 wc)
               (linspace x21 x22 wc) (linspace y21 y22 wc) z pitch 0 hc wc cf ++
             boxPassSpec (linspace x11 x12 wc) (linspace y11 y12 wc)
               (linspace x21 x22 wc) (linspace y21 y22 wc) z pitch 90 hc wc
               (cf + (wc : ℤ) * (hc + 1)) ++
             boxPassSpec (linspace x11 x12 wc) (linspace y11 y12 wc)
               (linspace x21 x22 wc) (linspace y21 y22 wc) z pitch 180 hc wc
               (cf + (wc : ℤ) * (hc + 1) + (wc : ℤ) * (hc + 1)) ++
             boxPassSpec (linspace x11 x12 wc) (linspace y11 y12 wc)
               (linspace x21 x22 wc) (linspace y21 y22 wc) z pitch 270 hc wc
               (cf + (wc : ℤ) * (hc + 1) + (wc : ℤ) * (hc + 1) + (wc : ℤ) * (hc + 1))),
            cf + (wc : ℤ) * (hc + 1) + (wc : ℤ) * (hc + 1) + (wc : ℤ) * (hc + 1) +
              (wc : ℤ) * (hc + 1)) := by
  subst hwc hhc hp
  simp only [generate_train_box]
  rw [if_pos ha]
  simp only [boxLanes_const_rot]

lemma generate_test_box_char (x11 y11 x12 y12 x21 y21 x22 y22 z : ℝ) (cf : ℤ)
    (g : ℕ → ℕ) (idx : ℕ) (wc : ℕ) (hc : ℤ)
    (ha : y11 = y12 ∧ y21 = y22 ∧ x11 = x21 ∧ x12 = x22)
    (hwc : wc = box_w_count (math_dist (x11, y11) (x12, y12)) 4501)
    (hhc : hc = box_h_count (math_dist (x11, y11) (x21, y21)) 4501) :
    generate_test_box (x11, y11, x12, y12) (x21, y21, x22, y22) z cf g idx =
      some (testBoxPassSpec (linspace x11 x12 wc) (linspace y11 y12 wc)
              (linspace x21 x22 wc) (linspace y21 y22 wc) z g idx hc wc cf,
            cf + (wc : ℤ) * (hc + 1), idx + 2 * wc) := by
  subst hwc hhc
  simp only [generate_test_box]
  rw [if_pos ha]
  simp only [boxLanes_test_rot]

/-! ### Facts about the ten-keyframe line sweep -/

lemma lineSweep_snd (p1 p2 : ℝ × ℝ) (z yaw : ℝ) (inst cf : ℤ) :
    (lineSweep p1 p2 z yaw inst cf).2 = cf + 5 * (inst + 1) := by
  simp only [lineSweep]
  ring

lemma lineSweep_length (p1 p2 : ℝ × ℝ) (z yaw : ℝ) (inst cf : ℤ) :
    (lineSweep p1 p2 z yaw inst cf).1.length = 10 := by
  simp [lineSweep]

lemma lineSweep_frames (p1 p2 : ℝ × ℝ) (z yaw : ℝ) (inst cf : ℤ) :
    (lineSweep p1 p2 z yaw inst cf).1.map SequenceKey.frame =
      [cf, cf + inst, cf + inst + 1, cf + 2 * inst + 1, cf + 2 * inst + 2,
       cf + 3 * inst + 2, cf + 3 * inst + 3, cf + 4 * inst + 3,
       cf + 4 * inst + 4, cf + 5 * inst + 4] := by
  simp only [lineSweep, List.map_cons, List.map_nil, List.cons.injEq, and_true,
    true_and, eq_self_iff_true]
  omega

lemma lineSweep_monotone (p1 p2 : ℝ × ℝ) (z yaw : ℝ) (inst cf : ℤ)
    (hi : 1 ≤ inst) :
    MonotoneFrames cf (lineSweep p1 p2 z yaw inst cf).1
      (lineSweep p1 p2 z yaw inst cf).2 := by
  refine ⟨?_, ?_, ?_⟩
  · rw [lineSweep_snd]; omega
  · have hmap : List.Chain' (fun a b : ℤ => a < b)
        ((lineSweep p1 p2 z yaw inst cf).1.map SequenceKey.frame) := by
      rw [lineSweep_frames]
      simp only [List.chain'_cons, List.chain'_singleton, and_true]
      omega
    exact (List.chain'_map _).mp hmap
  · intro k hk
    have hf : k.frame ∈ (lineSweep p1 p2 z yaw inst cf).1.map SequenceKey.frame :=
      List.mem_map_of_mem _ hk
    rw [lineSweep_frames] at hf
    rw [lineSweep_snd]
    simp only [List.mem_cons, List.not_mem_nil, or_false] at hf
    omega

lemma lineSweep_headlast (p1 p2 : ℝ × ℝ) (z yaw : ℝ) (inst cf : ℤ) :
    HeadLastSpec cf (lineSweep p1 p2 z yaw inst cf).1
      (lineSweep p1 p2 z yaw inst cf).2 := by
  have hf := lineSweep_frames p1 p2 z yaw inst cf
  constructor
  · have h1 : ((lineSweep p1 p2 z yaw inst cf).1.map SequenceKey.frame).head? =
        some cf := by rw [hf]; rfl
    rwa [List.head?_map] at h1
  · have h2 : ((lineSweep p1 p2 z yaw inst cf).1.map SequenceKey.frame).getLast? =
        some (cf + 5 * inst + 4) := by rw [hf]; simp
    rw [List.getLast?_map] at h2
    rw [lineSweep_snd, h2]
    congr 1
    ring

/-! ### Concrete evaluation helpers -/

lemma math_dist_origin : math_dist ((0 : ℝ), (0 : ℝ)) (0, 0) = 0 := by
  rw [math_dist_horizontal]
  norm_num

lemma box_w_count_zero_train : box_w_count 0 4000 = 2 := by
  norm_num [box_w_count]

lemma box_h_count_zero_train : box_h_count 0 4000 = 1 := by
  norm_num [box_h_count]

lemma box_w_count_zero_test : box_w_count 0 4501 = 2 := by
  norm_num [box_w_count]

lemma box_h_count_zero_test : box_h_count 0 4501 = 1 := by
  norm_num [box_h_count]

/-! ### Claim theorems -/

/-- C1: box-pattern train generation: for every valid rectangular region
(axis-aligned edge pair), altitude `z`, and starting cursor, the generator
emits, for each of the four yaw values `0, 90, 180, 270` in that order, a
full pass over all `w_count` lanes in lane order, where each lane emits a
keyframe at the lane's start point at the current cursor frame, advances the
cursor by `h_count`, emits a keyframe at the lane's end point at the new
cursor frame with the same orientation, then advances the cursor by `1`;
every rotation is `(0, pitch, yaw)` with the same pitch throughout (chosen
by the `z > 25000` threshold), and the total number of emitted keyframes is
exactly `4 × w_count × 2`. -/
theorem train_box_emission (x11 y11 x12 y12 x21 y21 x22 y22 z : ℝ) (cf : ℤ)
    (wc : ℕ) (hc : ℤ) (pitch : ℝ) (xs ys xe ye : ℕ → ℝ)
    (ha : y11 = y12 ∧ y21 = y22 ∧ x11 = x21 ∧ x12 = x22)
    (hwc : wc = box_w_count (math_dist (x11, y11) (x12, y12)) 4000)
    (hhc : hc = box_h_count (math_dist (x11, y11) (x21, y21)) 4000)
    (hp : pitch = if z > 25000 then (-60 : ℝ) else -45)
    (hxs : xs = linspace x11 x12 wc) (hys : ys = linspace y11 y12 wc)
    (hxe : xe = linspace x21 x22 wc) (hye : ye = linspace y21 y22 wc) :
    ∃ L cf',
      generate_train_box (x11, y11, x12, y12) (x21, y21, x22, y22) z cf =
        some (L, cf') ∧
      L = boxPassSpec xs ys xe ye z pitch 0 hc wc cf ++
          boxPassSpec xs ys xe ye z pitch 90 hc wc (cf + (wc : ℤ) * (hc + 1)) ++
          boxPassSpec xs ys xe ye z pitch 180 hc wc
            (cf + (wc : ℤ) * (hc + 1) + (wc : ℤ) * (hc + 1)) ++
          boxPassSpec xs ys xe ye z pitch 270 hc wc
            (cf + (wc : ℤ) * (hc + 1) + (wc : ℤ) * (hc + 1) + (wc : ℤ) * (hc + 1)) ∧
      (∀ k ∈ L, k.rotation.2.1 = pitch) ∧
      L.length = 4 * wc * 2 ∧
      cf' = cf + 4 * ((wc : ℤ) * (hc + 1)) := by
  subst hxs hys hxe hye
  refine ⟨_, _,
    generate_train_box_char x11 y11 x12 y12 x21 y21 x22 y22 z cf wc hc pitch
      ha hwc hhc hp, rfl, ?_, ?_, by ring⟩
  · intro k hk
    simp only [List.mem_append] at hk
    rcases hk with ((hk | hk) | hk) | hk <;>
      · have hr := boxPassSpec_rotation _ _ _ _ _ _ _ _ _ _ k hk
        rw [hr]
  · simp [boxPassSpec_length]
    ring

/-- Witness for C1 at the degenerate box `line1 = line2 = (0,0,0,0)`,
altitude `0`, cursor `0` (so `w_count = 2`, `h_count = 1`, pitch `-45`):
the call succeeds, emits `16 = 4 × 2 × 2` keyframes, and returns cursor
`16`. -/
theorem train_box_emission_witness :
    ∃ L cf',
      generate_train_box (0, 0, 0, 0) (0, 0, 0, 0) 0 0 = some (L, cf') ∧
      L.length = 16 ∧ cf' = 16 := by
  obtain ⟨L, cf', hgen, _, _, hlen, hcf⟩ :=
    train_box_emission 0 0 0 0 0 0 0 0 0 0 2 1 (-45)
      (linspace 0 0 2) (linspace 0 0 2) (linspace 0 0 2) (linspace 0 0 2)
      ⟨rfl, rfl, rfl, rfl⟩
      (by rw [math_dist_origin, box_w_count_zero_train])
      (by rw [math_dist_origin, box_h_count_zero_train])
      (by norm_num) rfl rfl rfl rfl
  refine ⟨L, cf', hgen, by rw [hlen], by rw [hcf]; norm_num⟩

/-- C2: concrete box-train scenario: edges `(-100000,0,-12000,0)` and
`(-100000,38000,-12000,38000)`, altitude `15000`, cursor `0`: pitch `-45`
(since `15000 ≤ 25000`), width `88000`, height `38000`, interval `4000`,
hence `w_count = 24` and `h_count = 10`; exactly `192` keyframes are emitted
and the final cursor is `1056`. -/
theorem train_box_concrete :
    math_dist (-100000, 0) (-12000, 0) = 88000 ∧
    math_dist (-100000, 0) (-100000, 38000) = 38000 ∧
    box_w_count 88000 4000 = 24 ∧
    box_h_count 38000 4000 = 10 ∧
    ∃ L,
      generate_train_box (-100000, 0, -12000, 0) (-100000, 38000, -12000, 38000)
        15000 0 = some (L, 1056) ∧
      L.length = 192 ∧
      ∀ k ∈ L, k.rotation.2.1 = -45 := by
  have hd1 : math_dist ((-100000 : ℝ), (0 : ℝ)) (-12000, 0) = 88000 := by
    rw [math_dist_horizontal]; norm_num
  have hd2 : math_dist ((-100000 : ℝ), (0 : ℝ)) (-100000, 38000) = 38000 := by
    rw [math_dist_vertical]; norm_num
  have hwc : box_w_count 88000 4000 = 24 := by
    unfold box_w_count
    norm_num
    decide
  have hhc : box_h_count 38000 4000 = 10 := by norm_num [box_h_count]
  have hchar := generate_train_box_char (-100000) 0 (-12000) 0 (-100000) 38000
    (-12000) 38000 15000 0 24 10 (-45) ⟨rfl, rfl, rfl, rfl⟩
    (by rw [hd1, hwc]) (by rw [hd2, hhc]) (by norm_num)
  refine ⟨hd1, hd2, hwc, hhc, ?_⟩
  rw [hchar]
  norm_num
  constructor
  · simp [boxPassSpec_length]
  · intro k hk
    rcases hk with hk | hk | hk | hk <;>
      · have hr := boxPassSpec_rotation _ _ _ _ _ _ _ _ _ _ k hk
        rw [hr]

/-- C3: line-pattern train generation: for every pair of endpoints, altitude
`z`, base yaw, and starting cursor, exactly ten keyframes are emitted as
five point1/point2 pairs with rotations `(0,0,yaw)`, `(0,0,90+yaw)`,
`(0,0,180+yaw)`, `(0,0,270+yaw)` and a fifth pair with pitch `90` and
unchanged yaw; there is no pitch `-90` pose; each pair shares identical
rotation and identical `z`; the cursor advances by `instance` after each
point1 keyframe and by `1` after each point2 keyframe; and in the concrete
scenario `point1 = [0,0]`, `point2 = [1000,0]`, `z = 300`, `yaw = 0`,
dense = false, starting cursor `0`, the distance is `1000`, the sparse
interval `500` gives `instance = 3`, and the final cursor is `20`. -/
theorem train_line_emission :
    (∀ (p1 p2 : ℝ × ℝ) (z yaw : ℝ) (cf : ℤ) (dense : Bool),
      (generate_train_line p1 p2 z yaw cf dense).1 =
        [⟨cf, (p1.1, p1.2, z), (0, 0, yaw)⟩,
         ⟨cf + train_line_inst (math_dist p1 p2) dense, (p2.1, p2.2, z), (0, 0, yaw)⟩,
         ⟨cf + train_line_inst (math_dist p1 p2) dense + 1, (p1.1, p1.2, z),
           (0, 0, 90 + yaw)⟩,
         ⟨cf + 2 * train_line_inst (math_dist p1 p2) dense + 1, (p2.1, p2.2, z),
           (0, 0, 90 + yaw)⟩,
         ⟨cf + 2 * train_line_inst (math_dist p1 p2) dense + 2, (p1.1, p1.2, z),
           (0, 0, 180 + yaw)⟩,
         ⟨cf + 3 * train_line_inst (math_dist p1 p2) dense + 2, (p2.1, p2.2, z),
           (0, 0, 180 + yaw)⟩,
         ⟨cf + 3 * train_line_inst (math_dist p1 p2) dense + 3, (p1.1, p1.2, z),
           (0, 0, 270 + yaw)⟩,
         ⟨cf + 4 * train_line_inst (math_dist p1 p2) dense + 3, (p2.1, p2.2, z),
           (0, 0, 270 + yaw)⟩,
         ⟨cf + 4 * train_line_inst (math_dist p1 p2) dense + 4, (p1.1, p1.2, z),
           (0, 90, yaw)⟩,
         ⟨cf + 5 * train_line_inst (math_dist p1 p2) dense + 4, (p2.1, p2.2, z),
           (0, 90, yaw)⟩] ∧
      (generate_train_line p1 p2 z yaw cf dense).2 =
        cf + 5 * (train_line_inst (math_dist p1 p2) dense + 1) ∧
      (generate_train_line p1 p2 z yaw cf dense).1.length = 10 ∧
      (∀ k ∈ (generate_train_line p1 p2 z yaw cf dense).1,
        k.rotation.2.1 ≠ -90)) ∧
    math_dist (0, 0) (1000, 0) = 1000 ∧
    train_line_inst 1000 false = 3 ∧
    (generate_train_line (0, 0) (1000, 0) 300 0 0 false).2 = 20 := by
  refine ⟨?_, ?_, ?_, ?_⟩
  · intro p1 p2 z yaw cf dense
    refine ⟨?_, ?_, lineSweep_length _ _ _ _ _ _, ?_⟩
    · simp only [generate_train_line, lineSweep, List.cons.injEq,
        SequenceKey.mk.injEq, Prod.mk.injEq, and_true, true_and,
        eq_self_iff_true]
      omega
    · simp only [generate_train_line]
      rw [lineSweep_snd]
    · intro k hk
      simp only [generate_train_line, lineSweep, List.mem_cons,
        List.not_mem_nil, or_false] at hk
      rcases hk with rfl | rfl | rfl | rfl | rfl | rfl | rfl | rfl | rfl | rfl <;>
        norm_num
  · rw [math_dist_horizontal]; norm_num
  · norm_num [train_line_inst]
  · have hd : math_dist ((0 : ℝ), (0 : ℝ)) (1000, 0) = 1000 := by
      rw [math_dist_horizontal]; norm_num
    simp only [generate_train_line]
    rw [lineSweep_snd, hd]
    norm_num [train_line_inst]

/-- C4: box-pattern test generation: for every valid region and starting
cursor, a single pass over the `w_count` lanes is performed (exactly
`2 × w_count` keyframes, no four-yaw replication), the sampling interval is
`4501` instead of the train value `4000`, for each lane one pitch is drawn
uniformly from the half-open integer range `[-60, -44)` and one yaw from the
integers `[0, 360]`, both keyframes of the lane carry the same drawn
pitch/yaw pair, and the cursor advances by `h_count` then by `1` per lane
exactly as in the train variant. -/
theorem test_box_emission (x11 y11 x12 y12 x21 y21 x22 y22 z : ℝ) (cf : ℤ)
    (g : ℕ → ℕ) (idx : ℕ) (wc : ℕ) (hc : ℤ) (xs ys xe ye : ℕ → ℝ)
    (ha : y11 = y12 ∧ y21 = y22 ∧ x11 = x21 ∧ x12 = x22)
    (hwc : wc = box_w_count (math_dist (x11, y11) (x12, y12)) 4501)
    (hhc : hc = box_h_count (math_dist (x11, y11) (x21, y21)) 4501)
    (hxs : xs = linspace x11 x12 wc) (hys : ys = linspace y11 y12 wc)
    (hxe : xe = linspace x21 x22 wc) (hye : ye = linspace y21 y22 wc) :
    ∃ L cf' idx',
      generate_test_box (x11, y11, x12, y12) (x21, y21, x22, y22) z cf g idx =
        some (L, cf', idx') ∧
      L = testBoxPassSpec xs ys xe ye z g idx hc wc cf ∧
      L.length = 2 * wc ∧
      cf' = cf + (wc : ℤ) * (hc + 1) ∧
      idx' = idx + 2 * wc ∧
      ∀ j : ℕ, -60 ≤ randint (-60) (-44) g j ∧ randint (-60) (-44) g j < -44 ∧
        0 ≤ randint 0 361 g j ∧ randint 0 361 g j ≤ 360 := by
  subst hxs hys hxe hye
  refine ⟨_, _, _,
    generate_test_box_char x11 y11 x12 y12 x21 y21 x22 y22 z cf g idx wc hc
      ha hwc hhc, rfl, testBoxPassSpec_length _ _ _ _ _ _ _ _ _ _, rfl, rfl, ?_⟩
  intro j
  have h1 := randint_bounds (-60) (-44) (by norm_num) g j
  have h2 := randint_bounds 0 361 (by norm_num) g j
  exact ⟨h1.1, h1.2, h2.1, by omega⟩

/-- Witness for C4 at the degenerate box `line1 = line2 = (0,0,0,0)`
(`w_count = 2`, `h_count = 1`), stream constantly `0`, start index `0`:
the call succeeds, emits `4` keyframes, returns cursor `4` and final
stream index `4`. -/
theorem test_box_emission_witness :
    ∃ L,
      generate_test_box (0, 0, 0, 0) (0, 0, 0, 0) 0 0 (fun _ => 0) 0 =
        some (L, 4, 4) ∧ L.length = 4 := by
  obtain ⟨L, cf', idx', hgen, _, hlen, hcf, hidx, _⟩ :=
    test_box_emission 0 0 0 0 0 0 0 0 0 0 (fun _ => 0) 0 2 1
      (linspace 0 0 2) (linspace 0 0 2) (linspace 0 0 2) (linspace 0 0 2)
      ⟨rfl, rfl, rfl, rfl⟩
      (by rw [math_dist_origin, box_w_count_zero_test])
      (by rw [math_dist_origin, box_h_count_zero_test])
      rfl rfl rfl rfl
  refine ⟨L, ?_, by rw [hlen]⟩
  rw [hgen, hcf, hidx]
  norm_num

/-- C5: line-pattern test generation: for every pair of endpoints, `z`,
input yaw, and starting cursor, before sampling the first endpoint is
displaced by `+570·(cos yaw, sin yaw)` and the second by
`-570·(cos yaw, sin yaw)` along the input yaw direction, then yaw is
replaced by a drawn value lying in `[0, 90]`, `instance` is
`⌊adjusted distance / 4830⌋ + 1`, and the same five-offset ten-keyframe
emission structure as the train line variant runs with that instance and the
redrawn yaw. -/
theorem test_line_emission (p1 p2 : ℝ × ℝ) (z yaw : ℝ) (cf : ℤ)
    (g : ℕ → ℕ) (idx : ℕ) (q1 q2 : ℝ × ℝ) (y' inst : ℤ)
    (hq1 : q1 = (p1.1 + Real.cos (radians yaw) * 570,
                 p1.2 + Real.sin (radians yaw) * 570))
    (hq2 : q2 = (p2.1 - Real.cos (radians yaw) * 570,
                 p2.2 - Real.sin (radians yaw) * 570))
    (hy : y' = randint 0 90 g idx)
    (hinst : inst = test_line_inst (math_dist q1 q2)) :
    generate_test_line p1 p2 z yaw cf g idx =
      ((lineSweep q1 q2 z (y' : ℝ) inst cf).1, cf + 5 * (inst + 1), q1, q2,
       idx + 1) ∧
    0 ≤ y' ∧ y' ≤ 90 ∧
    inst = ⌊math_dist q1 q2 / 4830⌋ + 1 ∧
    (generate_test_line p1 p2 z yaw cf g idx).1.map SequenceKey.rotation =
      [(0, 0, (y' : ℝ)), (0, 0, (y' : ℝ)), (0, 0, 90 + (y' : ℝ)),
       (0, 0, 90 + (y' : ℝ)), (0, 0, 180 + (y' : ℝ)), (0, 0, 180 + (y' : ℝ)),
       (0, 0, 270 + (y' : ℝ)), (0, 0, 270 + (y' : ℝ)), (0, 90, (y' : ℝ)),
       (0, 90, (y' : ℝ))] := by
  subst hq1 hq2 hy hinst
  have hb := randint_bounds 0 90 (by norm_num) g idx
  refine ⟨?_, hb.1, by omega, rfl, ?_⟩
  · simp only [generate_test_line, lineSweep_snd]
  · simp only [generate_test_line, lineSweep, List.map_cons, List.map_nil]

/-- Witness for C5 at `point1 = (0,0)`, `point2 = (1000,0)`, `z = 300`,
`yaw = 0`, cursor `0`, stream constantly `0`: the displaced endpoints are
`(570, 0)` and `(430, 0)`, the adjusted distance `140` gives `instance = 1`,
and the returned cursor is `10` after ten keyframes. -/
theorem test_line_emission_witness :
    (generate_test_line (0, 0) (1000, 0) 300 0 0 (fun _ => 0) 0).2.1 = 10 ∧
    (generate_test_line (0, 0) (1000, 0) 300 0 0 (fun _ => 0) 0).1.length = 10 := by
  have hq1 : ((570 : ℝ), (0 : ℝ)) =
      ((0 : ℝ) + Real.cos (radians 0) * 570, (0 : ℝ) + Real.sin (radians 0) * 570) := by
    simp [radians]
  have hq2 : ((430 : ℝ), (0 : ℝ)) =
      ((1000 : ℝ) - Real.cos (radians 0) * 570, (0 : ℝ) - Real.sin (radians 0) * 570) := by
    simp [radians]
    norm_num
  have hy : (0 : ℤ) = randint 0 90 (fun _ => 0) 0 := by
    simp [randint]
  have hinst : (1 : ℤ) = test_line_inst (math_dist (570, 0) (430, 0)) := by
    rw [math_dist_horizontal]
    norm_num [test_line_inst]
  obtain ⟨heq, _, _, _, _⟩ :=
    test_line_emission (0, 0) (1000, 0) 300 0 0 (fun _ => 0) 0 (570, 0) (430, 0)
      0 1 hq1 hq2 hy hinst
  constructor
  · rw [heq]
    norm_num
  · rw [heq]
    exact lineSweep_length _ _ _ _ _ _

/-- C6: sampler counts: for every valid rectangular region and positive
interval, `w_count = ⌊width/interval⌋ + 2 ≥ 2` (even for zero width) and
`h_count = ⌊height/interval⌋ + 1 ≥ 1` (even for zero height); for every line
segment, `instance = ⌊distance/interval⌋ + 1 ≥ 1`, with interval `100` for
the dense preset and `500` for the sparse preset of the train line
variant. -/
theorem sampler_counts :
    (∀ (w h iv : ℝ), 0 ≤ w → 0 ≤ h → 0 < iv →
      (box_w_count w iv : ℤ) = ⌊w / iv⌋ + 2 ∧
      2 ≤ box_w_count w iv ∧
      box_h_count h iv = ⌊h / iv⌋ + 1 ∧
      1 ≤ box_h_count h iv) ∧
    (∀ (p q : ℝ × ℝ) (dense : Bool),
      1 ≤ train_line_inst (math_dist p q) dense) ∧
    (∀ d : ℝ, train_line_inst d true = ⌊d / 100⌋ + 1 ∧
      train_line_inst d false = ⌊d / 500⌋ + 1) := by
  refine ⟨?_, ?_, ?_⟩
  · intro w h iv hw hh hiv
    exact ⟨box_w_count_cast w iv hw hiv, box_w_count_ge w iv, rfl,
      box_h_count_ge h iv hh hiv⟩
  · intro p q dense
    exact train_line_inst_ge _ (math_dist_nonneg p q) dense
  · intro d
    exact ⟨rfl, rfl⟩

/-- Witness for C6 at the degenerate zero-width, zero-height region with
interval `4000`: `w_count` is `2` and `h_count` is `1`. -/
theorem sampler_counts_witness :
    box_w_count 0 4000 = 2 ∧ box_h_count 0 4000 = 1 ∧
    1 ≤ train_line_inst (math_dist (0, 0) (0, 0)) false := by
  have h := sampler_counts
  have h1 := (h.1 0 0 4000 le_rfl le_rfl (by norm_num)).1
  have h2 := (h.1 0 0 4000 le_rfl le_rfl (by norm_num)).2.2.1
  refine ⟨?_, ?_, h.2.1 (0, 0) (0, 0) false⟩
  · have : ((box_w_count 0 4000 : ℕ) : ℤ) = 2 := by
      rw [h1]
      norm_num
    exact_mod_cast this
  · rw [h2]
    norm_num

lemma MonotoneFrames.nonneg {cfin cfout : ℤ} {L : List SequenceKey}
    (h : MonotoneFrames cfin L cfout) (hcf : 0 ≤ cfin) :
    ∀ k ∈ L, 0 ≤ k.frame :=
  fun k hk => le_trans hcf (h.2.2 k hk).1

lemma generate_train_box_monotone (x11 y11 x12 y12 x21 y21 x22 y22 z : ℝ)
    (cf : ℤ) (L : List SequenceKey) (cf' : ℤ)
    (hgen : generate_train_box (x11, y11, x12, y12) (x21, y21, x22, y22) z cf =
      some (L, cf')) :
    MonotoneFrames cf L cf' := by
  by_cases hcond : y11 = y12 ∧ y21 = y22 ∧ x11 = x21 ∧ x12 = x22
  · simp only [generate_train_box, if_pos hcond, Option.some.injEq,
      Prod.mk.injEq] at hgen
    obtain ⟨hL, hcf'⟩ := hgen
    subst hL hcf'
    have hh : 1 ≤ box_h_count (math_dist (x11, y11) (x21, y21)) 4000 :=
      box_h_count_ge _ _ (math_dist_nonneg _ _) (by norm_num)
    have hwne : box_w_count (math_dist (x11, y11) (x12, y12)) 4000 ≠ 0 := by
      have := box_w_count_ge (math_dist (x11, y11) (x12, y12)) 4000
      omega
    exact MonotoneFrames.append (MonotoneFrames.append (MonotoneFrames.append
      (boxLanes_monotone _ _ _ _ _ _ _ hh _ _ hwne _)
      (boxLanes_monotone _ _ _ _ _ _ _ hh _ _ hwne _))
      (boxLanes_monotone _ _ _ _ _ _ _ hh _ _ hwne _))
      (boxLanes_monotone _ _ _ _ _ _ _ hh _ _ hwne _)
  · simp only [generate_train_box, if_neg hcond] at hgen
    exact Option.noConfusion hgen

lemma generate_test_box_monotone (x11 y11 x12 y12 x21 y21 x22 y22 z : ℝ)
    (cf : ℤ) (g : ℕ → ℕ) (idx : ℕ) (L : List SequenceKey) (cf' : ℤ) (idx' : ℕ)
    (hgen : generate_test_box (x11, y11, x12, y12) (x21, y21, x22, y22) z cf
      g idx = some (L, cf', idx')) :
    MonotoneFrames cf L cf' := by
  by_cases hcond : y11 = y12 ∧ y21 = y22 ∧ x11 = x21 ∧ x12 = x22
  · simp only [generate_test_box, if_pos hcond, Option.some.injEq,
      Prod.mk.injEq] at hgen
    obtain ⟨hL, hcf', hidx'⟩ := hgen
    subst hL hcf'
    have hh : 1 ≤ box_h_count (math_dist (x11, y11) (x21, y21)) 4501 :=
      box_h_count_ge _ _ (math_dist_nonneg _ _) (by norm_num)
    have hwne : box_w_count (math_dist (x11, y11) (x12, y12)) 4501 ≠ 0 := by
      have := box_w_count_ge (math_dist (x11, y11) (x12, y12)) 4501
      omega
    exact boxLanes_monotone _ _ _ _ _ _ _ hh _ _ hwne _
  · simp only [generate_test_box, if_neg hcond] at hgen
    exact Option.noConfusion hgen

/-- C7: cursor monotonicity and frame order: for every generator call
(train/test, box/line) with non-negative starting cursor, the returned
cursor is strictly greater than the cursor passed in, every emitted frame is
a non-negative integer, and the frames within one call are strictly
increasing along the emitted list (hence non-decreasing, with no frame index
shared between distinct lanes or orientation offsets). -/
theorem cursor_monotone (x11 y11 x12 y12 x21 y21 x22 y22 zb : ℝ)
    (p1 p2 : ℝ × ℝ) (zl yawl : ℝ) (dense : Bool) (g : ℕ → ℕ) (idx : ℕ)
    (cf : ℤ) (hcf : 0 ≤ cf) :
    (∀ L cf',
      generate_train_box (x11, y11, x12, y12) (x21, y21, x22, y22) zb cf =
        some (L, cf') →
      MonotoneFrames cf L cf' ∧ ∀ k ∈ L, 0 ≤ k.frame) ∧
    (∀ L cf' idx',
      generate_test_box (x11, y11, x12, y12) (x21, y21, x22, y22) zb cf g idx =
        some (L, cf', idx') →
      MonotoneFrames cf L cf' ∧ ∀ k ∈ L, 0 ≤ k.frame) ∧
    (MonotoneFrames cf (generate_train_line p1 p2 zl yawl cf dense).1
        (generate_train_line p1 p2 zl yawl cf dense).2 ∧
      ∀ k ∈ (generate_train_line p1 p2 zl yawl cf dense).1, 0 ≤ k.frame) ∧
    (MonotoneFrames cf (generate_test_line p1 p2 zl yawl cf g idx).1
        (generate_test_line p1 p2 zl yawl cf g idx).2.1 ∧
      ∀ k ∈ (generate_test_line p1 p2 zl yawl cf g idx).1, 0 ≤ k.frame) := by
  refine ⟨?_, ?_, ?_, ?_⟩
  · intro L cf' hgen
    have hm := generate_train_box_monotone x11 y11 x12 y12 x21 y21 x22 y22 zb
      cf L cf' hgen
    exact ⟨hm, hm.nonneg hcf⟩
  · intro L cf' idx' hgen
    have hm := generate_test_box_monotone x11 y11 x12 y12 x21 y21 x22 y22 zb
      cf g idx L cf' idx' hgen
    exact ⟨hm, hm.nonneg hcf⟩
  · have hm : MonotoneFrames cf (generate_train_line p1 p2 zl yawl cf dense).1
        (generate_train_line p1 p2 zl yawl cf dense).2 := by
      simp only [generate_train_line]
      exact lineSweep_monotone _ _ _ _ _ _
        (train_line_inst_ge _ (math_dist_nonneg _ _) dense)
    exact ⟨hm, hm.nonneg hcf⟩
  · have hm : MonotoneFrames cf (generate_test_line p1 p2 zl yawl cf g idx).1
        (generate_test_line p1 p2 zl yawl cf g idx).2.1 := by
      simp only [generate_test_line]
      exact lineSweep_monotone _ _ _ _ _ _
        (test_line_inst_ge _ (math_dist_nonneg _ _))
    exact ⟨hm, hm.nonneg hcf⟩

/-- Witness for C7 at starting cursor `0`: for the degenerate box the train
generator's output satisfies the monotone-frame property, and so does the
train line generator on the degenerate segment. -/
theorem cursor_monotone_witness :
    (∃ L cf',
      generate_train_box (0, 0, 0, 0) (0, 0, 0, 0) 0 0 = some (L, cf') ∧
      MonotoneFrames 0 L cf') ∧
    MonotoneFrames 0 (generate_train_line (0, 0) (0, 0) 0 0 0 false).1
      (generate_train_line (0, 0) (0, 0) 0 0 0 false).2 := by
  have h := cursor_monotone 0 0 0 0 0 0 0 0 0 (0, 0) (0, 0) 0 0 false
    (fun _ => 0) 0 0 le_rfl
  constructor
  · have hchar := generate_train_box_char 0 0 0 0 0 0 0 0 0 0 2 1 (-45)
      ⟨rfl, rfl, rfl, rfl⟩
      (by rw [math_dist_origin, box_w_count_zero_train])
      (by rw [math_dist_origin, box_h_count_zero_train])
      (by norm_num)
    exact ⟨_, _, hchar, (h.1 _ _ hchar).1⟩
  · exact h.2.2.1.1

/-- C8: precondition failure: a box-generator call (train or test) succeeds
with some result exactly when the two edges satisfy the axis-alignment
requirement; on violating inputs the call fails with no partial result
(`none`), before any sampling work or keyframe emission. -/
theorem box_precondition (x11 y11 x12 y12 x21 y21 x22 y22 z : ℝ) (cf : ℤ)
    (g : ℕ → ℕ) (idx : ℕ) :
    ((∃ r, generate_train_box (x11, y11, x12, y12) (x21, y21, x22, y22) z cf =
        some r) ↔ (y11 = y12 ∧ y21 = y22 ∧ x11 = x21 ∧ x12 = x22)) ∧
    ((∃ r, generate_test_box (x11, y11, x12, y12) (x21, y21, x22, y22) z cf
        g idx = some r) ↔ (y11 = y12 ∧ y21 = y22 ∧ x11 = x21 ∧ x12 = x22)) := by
  constructor
  · constructor
    · rintro ⟨r, hr⟩
      by_contra hcond
      simp only [generate_train_box, if_neg hcond] at hr
      exact Option.noConfusion hr
    · intro hcond
      exact ⟨_, generate_train_box_char x11 y11 x12 y12 x21 y21 x22 y22 z cf
        _ _ _ hcond rfl rfl rfl⟩
  · constructor
    · rintro ⟨r, hr⟩
      by_contra hcond
      simp only [generate_test_box, if_neg hcond] at hr
      exact Option.noConfusion hr
    · intro hcond
      exact ⟨_, generate_test_box_char x11 y11 x12 y12 x21 y21 x22 y22 z cf
        g idx _ _ hcond rfl rfl⟩

/-- C9 counterexample: `generate_test_line` does NOT leave its input
arguments unchanged.  Called with `point1 = (0,0)`, `point2 = (1000,0)`,
`yaw = 0`, the final value of the `point1` variable (returned as explicit
state by the embedding, mirroring the in-place element assignments of the
source) is `(570, 0) ≠ (0, 0)`. -/
theorem test_line_input_mutated :
    (generate_test_line (0, 0) (1000, 0) 300 0 0 (fun _ => 0) 0).2.2.1 ≠
      ((0 : ℝ), (0 : ℝ)) := by
  simp only [generate_test_line, ne_eq, Prod.mk.injEq, not_and]
  intro h1
  rw [show radians 0 = 0 by simp [radians], Real.cos_zero] at h1
  norm_num at h1

/-- C9 amended: the train box, test box, and train line generators are pure
functions of their inputs (their embeddings take and return no argument
state), but `generate_test_line` overwrites its `point1`/`point2` arguments
in place: their final values are the endpoints displaced by
`±570·(cos (radians yaw), sin (radians yaw))`, and the random-source cursor
advances by one; these, plus the returned keyframe list and cursor, are the
call's only effects. -/
theorem test_line_mutation_amended (p1 p2 : ℝ × ℝ) (z yaw : ℝ) (cf : ℤ)
    (g : ℕ → ℕ) (idx : ℕ) :
    (generate_test_line p1 p2 z yaw cf g idx).2.2.1 =
      (p1.1 + Real.cos (radians yaw) * 570, p1.2 + Real.sin (radians yaw) * 570) ∧
    (generate_test_line p1 p2 z yaw cf g idx).2.2.2.1 =
      (p2.1 - Real.cos (radians yaw) * 570, p2.2 - Real.sin (radians yaw) * 570) ∧
    (generate_test_line p1 p2 z yaw cf g idx).2.2.2.2 = idx + 1 :=
  ⟨rfl, rfl, rfl⟩

lemma boxLanes_headlast_first (xs ys xe ye : ℕ → ℝ) (z : ℝ)
    (rot : ℕ → ℝ × ℝ × ℝ) (h : ℤ) (m : ℕ) (cf : ℤ) (t : List SequenceKey) :
    (((boxLanes xs ys xe ye z rot h 0 cf (m + 1)).1 ++ t).head?).map
      SequenceKey.frame = some cf := by
  simp only [boxLanes, List.cons_append, List.head?_cons, Option.map_some']

lemma boxLanes_last_frame (xs ys xe ye : ℕ → ℝ) (z : ℝ)
    (rot : ℕ → ℝ × ℝ × ℝ) (h : ℤ) (m : ℕ) (cf : ℤ) :
    ((boxLanes xs ys xe ye z rot h 0 cf (m + 1)).1.getLast?).map
      SequenceKey.frame =
      some ((boxLanes xs ys xe ye z rot h 0 cf (m + 1)).2 - 1) := by
  rw [boxLanes_getLast, boxLanes_snd]
  simp only [Option.map_some', Option.some.injEq]
  push_cast
  ring

lemma boxLanes_ne_nil (xs ys xe ye : ℕ → ℝ) (z : ℝ) (rot : ℕ → ℝ × ℝ × ℝ)
    (h : ℤ) (m : ℕ) (cf : ℤ) :
    (boxLanes xs ys xe ye z rot h 0 cf (m + 1)).1 ≠ [] := by
  simp only [boxLanes]
  exact List.cons_ne_nil _ _

lemma generate_train_box_headlast (x11 y11 x12 y12 x21 y21 x22 y22 z : ℝ)
    (cf : ℤ) (L : List SequenceKey) (cf' : ℤ)
    (hgen : generate_train_box (x11, y11, x12, y12) (x21, y21, x22, y22) z cf =
      some (L, cf')) :
    HeadLastSpec cf L cf' := by
  by_cases hcond : y11 = y12 ∧ y21 = y22 ∧ x11 = x21 ∧ x12 = x22
  · simp only [generate_train_box, if_pos hcond, Option.some.injEq,
      Prod.mk.injEq] at hgen
    obtain ⟨hL, hcf'⟩ := hgen
    subst hL hcf'
    obtain ⟨m, hm⟩ : ∃ m, box_w_count (math_dist (x11, y11) (x12, y12)) 4000 =
        m + 1 := by
      have := box_w_count_ge (math_dist (x11, y11) (x12, y12)) 4000
      exact ⟨box_w_count (math_dist (x11, y11) (x12, y12)) 4000 - 1, by omega⟩
    rw [hm]
    constructor
    · simp only [List.append_assoc]
      exact boxLanes_headlast_first _ _ _ _ _ _ _ _ _ _
    · rw [List.getLast?_append_of_ne_nil _ (boxLanes_ne_nil _ _ _ _ _ _ _ _ _)]
      exact boxLanes_last_frame _ _ _ _ _ _ _ _ _
  · simp only [generate_train_box, if_neg hcond] at hgen
    exact Option.noConfusion hgen

lemma generate_test_box_headlast (x11 y11 x12 y12 x21 y21 x22 y22 z : ℝ)
    (cf : ℤ) (g : ℕ → ℕ) (idx : ℕ) (L : List SequenceKey) (cf' : ℤ) (idx' : ℕ)
    (hgen : generate_test_box (x11, y11, x12, y12) (x21, y21, x22, y22) z cf
      g idx = some (L, cf', idx')) :
    HeadLastSpec cf L cf' := by
  by_cases hcond : y11 = y12 ∧ y21 = y22 ∧ x11 = x21 ∧ x12 = x22
  · simp only [generate_test_box, if_pos hcond, Option.some.injEq,
      Prod.mk.injEq] at hgen
    obtain ⟨hL, hcf', hidx'⟩ := hgen
    subst hL hcf'
    obtain ⟨m, hm⟩ : ∃ m, box_w_count (math_dist (x11, y11) (x12, y12)) 4501 =
        m + 1 := by
      have := box_w_count_ge (math_dist (x11, y11) (x12, y12)) 4501
      exact ⟨box_w_count (math_dist (x11, y11) (x12, y12)) 4501 - 1, by omega⟩
    rw [hm]
    constructor
    · have hh := boxLanes_headlast_first (linspace x11 x12 (m + 1))
        (linspace y11 y12 (m + 1)) (linspace x21 x22 (m + 1))
        (linspace y21 y22 (m + 1)) z
        (fun i => (0, (randint (-60) (-44) g (idx + 2 * i) : ℝ),
          (randint 0 361 g (idx + 2 * i + 1) : ℝ)))
        (box_h_count (math_dist (x11, y11) (x21, y21)) 4501) m cf []
      rwa [List.append_nil] at hh
    · exact boxLanes_last_frame _ _ _ _ _ _ _ _ _
  · simp only [generate_test_box, if_neg hcond] at hgen
    exact Option.noConfusion hgen

/-- C10: cursor/last-frame relation: for each of the four generators, on any
input that emits at least one keyframe (always the case when a box call
succeeds, and unconditionally for the line generators), the first emitted
keyframe's frame equals the cursor passed in, and the returned cursor equals
the frame of the last emitted keyframe plus one. -/
theorem frame_cursor_relation (x11 y11 x12 y12 x21 y21 x22 y22 zb : ℝ)
    (p1 p2 : ℝ × ℝ) (zl yawl : ℝ) (dense : Bool) (g : ℕ → ℕ) (idx : ℕ)
    (cf : ℤ) :
    (∀ L cf',
      generate_train_box (x11, y11, x12, y12) (x21, y21, x22, y22) zb cf =
        some (L, cf') → HeadLastSpec cf L cf') ∧
    (∀ L cf' idx',
      generate_test_box (x11, y11, x12, y12) (x21, y21, x22, y22) zb cf g idx =
        some (L, cf', idx') → HeadLastSpec cf L cf') ∧
    HeadLastSpec cf (generate_train_line p1 p2 zl yawl cf dense).1
      (generate_train_line p1 p2 zl yawl cf dense).2 ∧
    HeadLastSpec cf (generate_test_line p1 p2 zl yawl cf g idx).1
      (generate_test_line p1 p2 zl yawl cf g idx).2.1 := by
  refine ⟨?_, ?_, ?_, ?_⟩
  · intro L cf' hgen
    exact generate_train_box_headlast x11 y11 x12 y12 x21 y21 x22 y22 zb cf
      L cf' hgen
  · intro L cf' idx' hgen
    exact generate_test_box_headlast x11 y11 x12 y12 x21 y21 x22 y22 zb cf
      g idx L cf' idx' hgen
  · simp only [generate_train_line]
    exact lineSweep_headlast _ _ _ _ _ _
  · simp only [generate_test_line]
    exact lineSweep_headlast _ _ _ _ _ _

/-- Witness for C10 at cursor `0`: the degenerate train box call satisfies
the head/last relation, and so does the degenerate train line call. -/
theorem frame_cursor_relation_witness :
    (∃ L cf',
      generate_train_box (0, 0, 0, 0) (0, 0, 0, 0) 0 0 = some (L, cf') ∧
      HeadLastSpec 0 L cf') ∧
    HeadLastSpec 0 (generate_train_line (0, 0) (0, 0) 0 0 0 false).1
      (generate_train_line (0, 0) (0, 0) 0 0 0 false).2 := by
  have h := frame_cursor_relation 0 0 0 0 0 0 0 0 0 (0, 0) (0, 0) 0 0 false
    (fun _ => 0) 0 0
  constructor
  · have hchar := generate_train_box_char 0 0 0 0 0 0 0 0 0 0 2 1 (-45)
      ⟨rfl, rfl, rfl, rfl⟩
      (by rw [math_dist_origin, box_w_count_zero_train])
      (by rw [math_dist_origin, box_h_count_zero_train])
      (by norm_num)
    exact ⟨_, _, hchar, h.1 _ _ hchar⟩
  · exact h.2.2.1
